import Mathlib

/-!
Shallow embedding of the contact-book program (`Main.py`): validated field
values (`Phone`, `Birthday`), contact records, the `AddressBook` mapping and
its upcoming-birthday query, plus the command-layer helpers `validate_phone`
and `update_contact`.  Python `datetime.date` values are modelled as
year/month/day triples over the proleptic Gregorian calendar; Python object
identity (the semantics of `==` on `Field` instances, which define no
`__eq__`) is modelled by tagging each constructed `Phone` with an allocation
id.  Character classes (`str.isdigit`, `\d`) are modelled over ASCII digits.
-/

namespace HW07

/-- Gregorian leap-year rule, as used by `datetime.date`. -/
def isLeap (y : Nat) : Bool := (y % 4 == 0 && y % 100 != 0) || y % 400 == 0

/-- Length of a month, as used by `datetime.date`. -/
def daysInMonth (y m : Nat) : Nat :=
  if m == 2 then (if isLeap y then 29 else 28)
  else if m == 4 || m == 6 || m == 9 || m == 11 then 30
  else 31

/-- A calendar date triple; `datetime.date` values are the `valid` ones. -/
structure Date where
  year : Nat
  month : Nat
  day : Nat
deriving DecidableEq

/-- Range checks enforced by the `datetime.date` constructor. -/
def Date.valid (d : Date) : Bool :=
  1 ≤ d.year && d.year ≤ 9999 && 1 ≤ d.month && d.month ≤ 12 &&
  1 ≤ d.day && d.day ≤ daysInMonth d.year d.month

/-- Days in year `y` strictly before month `m` (CPython `_days_before_month`). -/
def daysBeforeMonth (y m : Nat) : Nat :=
  let l := if isLeap y then 1 else 0
  match m with
  | 1 => 0
  | 2 => 31
  | 3 => 59 + l
  | 4 => 90 + l
  | 5 => 120 + l
  | 6 => 151 + l
  | 7 => 181 + l
  | 8 => 212 + l
  | 9 => 243 + l
  | 10 => 273 + l
  | 11 => 304 + l
  | 12 => 334 + l
  | _ => 0

/-- Proleptic Gregorian ordinal, `datetime.date.toordinal` (01.01.0001 ↦ 1). -/
def Date.toOrdinal (d : Date) : Nat :=
  let y := d.year - 1
  365 * y + y / 4 - y / 100 + y / 400 + daysBeforeMonth d.year d.month + d.day

/-- Weekday à la `datetime.date.weekday`: Monday = 0, …, Sunday = 6. -/
def Date.weekday (d : Date) : Nat := (d.toOrdinal + 6) % 7

/-- Python `date.__lt__`: lexicographic comparison of (year, month, day). -/
def Date.pyLt (a b : Date) : Bool :=
  a.year < b.year ||
  (a.year == b.year && (a.month < b.month ||
    (a.month == b.month && a.day < b.day)))

/-- Python `date.replace(year=y)`: rebuilds the date, revalidating it
(raises `ValueError` e.g. for Feb 29 mapped into a non-leap year). -/
def Date.replaceYear (d : Date) (y : Nat) : Except String Date :=
  let d2 : Date := ⟨y, d.month, d.day⟩
  if d2.valid then .ok d2 else .error "ValueError"

/-- Successor date as computed by `date + timedelta(days=1)`; raises
`OverflowError` past the maximal `datetime` date 31.12.9999. -/
def Date.succDayE (d : Date) : Except String Date :=
  if d.day < daysInMonth d.year d.month then .ok ⟨d.year, d.month, d.day + 1⟩
  else if d.month < 12 then .ok ⟨d.year, d.month + 1, 1⟩
  else if d.year < 9999 then .ok ⟨d.year + 1, 1, 1⟩
  else .error "OverflowError"

/-- Adding `n` days via repeated `succDayE` (`date + timedelta(days=n)`). -/
def Date.addDaysE (d : Date) : Nat → Except String Date
  | 0 => .ok d
  | n + 1 => match d.succDayE with
    | .ok d2 => d2.addDaysE n
    | .error e => .error e

/-- Total successor date (no upper bound), used on the specification side. -/
def Date.succDayT (d : Date) : Date :=
  if d.day < daysInMonth d.year d.month then ⟨d.year, d.month, d.day + 1⟩
  else if d.month < 12 then ⟨d.year, d.month + 1, 1⟩
  else ⟨d.year + 1, 1, 1⟩

/-- Total addition of `n` days, used on the specification side. -/
def Date.addDaysT (d : Date) : Nat → Date
  | 0 => d
  | n + 1 => d.succDayT.addDaysT n

/-- Decimal digit character for `n < 10`. -/
def digitChar (n : Nat) : Char := Char.ofNat (48 + n)

/-- Two zero-padded decimal digits, the output of `strftime` `%d` / `%m`. -/
def pad2L (n : Nat) : List Char := [digitChar (n / 10 % 10), digitChar (n % 10)]

/-- Four zero-padded decimal digits, the output of `strftime` `%Y`. -/
def pad4L (n : Nat) : List Char :=
  [digitChar (n / 1000 % 10), digitChar (n / 100 % 10),
   digitChar (n / 10 % 10), digitChar (n % 10)]

/-- Rendering of `d.strftime("%d.%m.%Y")`. -/
def Date.format (d : Date) : String :=
  ⟨pad2L d.day ++ '.' :: (pad2L d.month ++ '.' :: pad4L d.year)⟩

/-- Splitting a character list at every `'.'` (the literal separators of the
`"%d.%m.%Y"` format); always returns at least one (possibly empty) segment. -/
def splitDots : List Char → List (List Char)
  | [] => [[]]
  | c :: rest =>
    match splitDots rest with
    | [] => [[]]
    | t :: ts => if c = '.' then [] :: t :: ts else (c :: t) :: ts

/-- Numeric value of a digit token (how `int` reads the regex groups). -/
def tokVal (l : List Char) : Nat := l.foldl (fun a c => 10 * a + (c.toNat - 48)) 0

/-- Token made of at least one ASCII digit. -/
def tokDigits (l : List Char) : Bool := !l.isEmpty && l.all Char.isDigit

/-- Day group of CPython `strptime`, regex `3[01]|[12]\d|0[1-9]|[1-9]`:
one or two digits with value 1–31. -/
def dayTokOk (l : List Char) : Bool :=
  tokDigits l && (l.length == 1 || l.length == 2) && 1 ≤ tokVal l && tokVal l ≤ 31

/-- Month group of CPython `strptime`, regex `1[0-2]|0[1-9]|[1-9]`:
one or two digits with value 1–12. -/
def monthTokOk (l : List Char) : Bool :=
  tokDigits l && (l.length == 1 || l.length == 2) && 1 ≤ tokVal l && tokVal l ≤ 12

/-- Year group of CPython `strptime`, regex `\d\d\d\d`: exactly four digits. -/
def yearTokOk (l : List Char) : Bool := tokDigits l && l.length == 4

/-- Embedding of `datetime.strptime(s, "%d.%m.%Y")` as wrapped by `Birthday`:
the format's literal dots split the input, each group must match its regex,
the whole string must be consumed, and the resulting triple must be a
constructible `datetime` date.  Any failure is re-raised by `Birthday` as
`ValueError("Invalid date format. Use DD.MM.YYYY")`. -/
def strptimeDMY (s : String) : Except String Date :=
  match splitDots s.data with
  | [d, m, y] =>
    if dayTokOk d && monthTokOk m && yearTokOk y then
      if Date.valid ⟨tokVal y, tokVal m, tokVal d⟩ then
        .ok ⟨tokVal y, tokVal m, tokVal d⟩
      else .error "Invalid date format. Use DD.MM.YYYY"
    else .error "Invalid date format. Use DD.MM.YYYY"
  | _ => .error "Invalid date format. Use DD.MM.YYYY"

/-- A `Phone` object: its stored string `value` plus an allocation id `pid`
standing for Python object identity (`Field` defines no `__eq__`, so `==`
on phones is `is`). -/
structure Phone where
  pid : Nat
  value : String
deriving DecidableEq

/-- Python `==` between `Phone` objects: object identity. -/
def pyEq (a b : Phone) : Bool := a.pid == b.pid

/-- String left after `''.join(ch for ch in value if ch.isdigit())`. -/
def stripNonDigits (s : String) : String := ⟨s.data.filter Char.isDigit⟩

/-- Validation performed by `Phone._validate`: exactly 10 digit characters
must remain after stripping non-digits; the *original* string is kept. -/
def phoneValidate (value : String) : Except String String :=
  if (stripNonDigits value).data.length == 10 then .ok value
  else .error "Phone number must have 10 digits"

/-- Construction `Phone(value)`: validate, then allocate a fresh object id. -/
def mkPhone (ctr : Nat) (value : String) : Except String (Phone × Nat) :=
  match phoneValidate value with
  | .ok v => .ok (⟨ctr, v⟩, ctr + 1)
  | .error e => .error e

/-- The `str | Phone` union accepted by the `Record` phone methods. -/
inductive StrOrPhone where
  | str (s : String)
  | phone (p : Phone)
deriving DecidableEq

/-- The `phone if isinstance(phone, Phone) else Phone(phone)` idiom: an
existing object is used as is, a raw string is validated and wrapped. -/
def resolvePhone (ctr : Nat) : StrOrPhone → Except String (Phone × Nat)
  | .phone p => .ok (p, ctr)
  | .str s => mkPhone ctr s

/-- The `Name` field (no validation beyond storing the string). -/
structure PName where
  value : String
deriving DecidableEq

/-- A contact record: name, ordered phone list, optional birthday
(`Birthday.value` holds the parsed date). -/
structure Record where
  name : PName
  phones : List Phone
  birthday : Option Date
deriving DecidableEq

/-- `Record(name)`: empty phone list, no birthday. -/
def Record.mk0 (name : String) : Record := ⟨⟨name⟩, [], none⟩

/-- `Record.add_phone`: wrap/validate, then append (duplicates allowed).
Returns the raised error, or the stored phone with the updated record; the
allocation counter is threaded through. -/
def Record.add_phone (ctr : Nat) (r : Record) (x : StrOrPhone) :
    Except String Phone × Record × Nat :=
  match resolvePhone ctr x with
  | .error e => (.error e, r, ctr)
  | .ok (p, c2) => (.ok p, { r with phones := r.phones ++ [p] }, c2)

/-- First-match removal, the semantics of `list.remove`. -/
def removeFirst (pred : Phone → Bool) : List Phone → List Phone
  | [] => []
  | x :: xs => if pred x then xs else x :: removeFirst pred xs

/-- `Record.remove_phone`: wrap/validate, membership test with `==`
(identity), then `list.remove` of the first `==`-equal element. -/
def Record.remove_phone (ctr : Nat) (r : Record) (x : StrOrPhone) :
    Except String Bool × Record × Nat :=
  match resolvePhone ctr x with
  | .error e => (.error e, r, ctr)
  | .ok (p, c2) =>
    if r.phones.any (fun q => pyEq p q) then
      (.ok true, { r with phones := removeFirst (fun q => pyEq p q) r.phones }, c2)
    else (.ok false, r, c2)

/-- Replacement of the first element satisfying `pred` (the indexed
assignment `self.phones[i] = new_instance` inside the scan loop). -/
def replaceFirst (pred : Phone → Bool) (np : Phone) : List Phone → Bool × List Phone
  | [] => (false, [])
  | x :: xs =>
    if pred x then (true, np :: xs)
    else
      let (b, ys) := replaceFirst pred np xs
      (b, x :: ys)

/-- `Record.edit_phone`: wrap/validate both arguments (either may raise,
before any mutation), then replace the first `==`-equal entry in place. -/
def Record.edit_phone (ctr : Nat) (r : Record) (old new : StrOrPhone) :
    Except String Bool × Record × Nat :=
  match resolvePhone ctr old with
  | .error e => (.error e, r, ctr)
  | .ok (op, c1) =>
    match resolvePhone c1 new with
    | .error e => (.error e, r, c1)
    | .ok (np, c2) =>
      let (b, ps) := replaceFirst (fun q => pyEq op q) np r.phones
      (.ok b, { r with phones := ps }, c2)

/-- `Record.find_phone`: wrap/validate, then return the first `==`-equal
stored entry, if any. -/
def Record.find_phone (ctr : Nat) (r : Record) (x : StrOrPhone) :
    Except String (Option Phone) × Nat :=
  match resolvePhone ctr x with
  | .error e => (.error e, ctr)
  | .ok (p, c2) => (.ok (r.phones.find? (fun q => pyEq p q)), c2)

/-- `Record.add_birthday` with a raw string: parse via `Birthday`, then
overwrite any existing birthday. -/
def Record.add_birthday (r : Record) (s : String) : Except String Record :=
  match strptimeDMY s with
  | .ok d => .ok { r with birthday := some d }
  | .error e => .error e

/-- The argument of `AddressBook.add_record`, which performs an
`isinstance(record, Record)` check at run time. -/
inductive PyObj where
  | record (r : Record)
  | other (tag : String)
deriving DecidableEq

/-- The `AddressBook` dictionary: an insertion-ordered list of unique keys. -/
structure AddressBook where
  data : List (String × Record)
deriving DecidableEq

/-- Python `dict.__setitem__`: replace the value in place if the key exists
(original position kept), else append. -/
def dictInsert (k : String) (v : Record) : List (String × Record) → List (String × Record)
  | [] => [(k, v)]
  | (k2, v2) :: rest =>
    if k2 == k then (k, v) :: rest else (k2, v2) :: dictInsert k v rest

/-- `AddressBook.add_record`: `TypeError` for a non-`Record`, else insert
keyed by `record.name.value`. -/
def AddressBook.add_record (b : AddressBook) : PyObj → Except String AddressBook
  | .record r => .ok ⟨dictInsert r.name.value r b.data⟩
  | .other _ => .error "Очікувався об'єкт Record."

/-- `AddressBook.find`: `dict.get`, exact key lookup. -/
def AddressBook.find (b : AddressBook) (name : String) : Option Record :=
  (b.data.find? (fun kv => kv.1 == name)).map Prod.snd

/-- `AddressBook.delete`: remove the key if present, report whether it was. -/
def AddressBook.delete (b : AddressBook) (name : String) : Bool × AddressBook :=
  if b.data.any (fun kv => kv.1 == name) then
    (true, ⟨b.data.filter (fun kv => kv.1 != name)⟩)
  else (false, b)

/-- One emitted dictionary `{"name": …, "congratulation_date": …}`. -/
structure UpEntry where
  name : String
  congratulation_date : String
deriving DecidableEq

/-- Weekend shift of the loop body: Saturday `+= timedelta(days=2)`,
Sunday `+= timedelta(days=1)`, otherwise unchanged. -/
def shiftWeekend (d : Date) : Except String Date :=
  if d.weekday == 5 then d.addDaysE 2
  else if d.weekday == 6 then d.addDaysE 1
  else .ok d

/-- One iteration of the `get_upcoming_birthdays` loop over record `r`:
skip a record without birthday; map the birthday into the reference year
(revalidating, as `date.replace` does); advance one year if already past;
emit the (possibly weekend-shifted) congratulation date when the birthday
falls within the next 7 days.  The record comes back unchanged alongside
the optional emitted entry. -/
def recordUpcomingSt (today : Date) (r : Record) :
    Except String (Record × Option UpEntry) :=
  match r.birthday with
  | none => .ok (r, none)
  | some bday =>
    match bday.replaceYear today.year with
    | .error e => .error e
    | .ok t0 =>
      match (if t0.pyLt today then t0.replaceYear (today.year + 1) else .ok t0) with
      | .error e => .error e
      | .ok t =>
        if 0 ≤ (t.toOrdinal : Int) - (today.toOrdinal : Int) ∧
            (t.toOrdinal : Int) - (today.toOrdinal : Int) ≤ 7 then
          match shiftWeekend t with
          | .error e => .error e
          | .ok cd => .ok (r, some ⟨r.name.value, cd.format⟩)
        else .ok (r, none)

/-- The `get_upcoming_birthdays` loop over the dictionary entries, threading
every visited record back into the mapping (records are owned by the book and
visited by reference); an exception propagates and leaves the rest as is. -/
def goUpcoming (today : Date) :
    List (String × Record) → Except String (List UpEntry) × List (String × Record)
  | [] => (.ok [], [])
  | (k, r) :: rest =>
    match recordUpcomingSt today r with
    | .error e => (.error e, (k, r) :: rest)
    | .ok (r2, ent) =>
      let (res, rest2) := goUpcoming today rest
      (match res with
       | .error e => .error e
       | .ok l => .ok (ent.toList ++ l), (k, r2) :: rest2)

/-- `AddressBook.get_upcoming_birthdays`, with the reference date made an
explicit parameter (`datetime.today().date()` in the source): returns the
emitted list (or the propagated exception) together with the book state
after the traversal. -/
def AddressBook.get_upcoming_birthdays (b : AddressBook) (today : Date) :
    Except String (List UpEntry) × AddressBook :=
  let (res, data2) := goUpcoming today b.data
  (res, ⟨data2⟩)

/-- Python `str.isdigit`: non-empty and all digit characters (ASCII model). -/
def pyIsdigit (s : String) : Bool := !s.data.isEmpty && s.data.all Char.isDigit

/-- Full match of the regex `^(?:\+?380|0)\d{9}$` (`UA_SIMPLE`). -/
def uaSimpleMatch (s : String) : Bool :=
  match s.data with
  | '+' :: '3' :: '8' :: '0' :: rest => rest.length == 9 && rest.all Char.isDigit
  | '3' :: '8' :: '0' :: rest => rest.length == 9 && rest.all Char.isDigit
  | '0' :: rest => rest.length == 9 && rest.all Char.isDigit
  | _ => false

/-- The command layer's secondary rule `validate_phone`: the string must be
all digits *and* match `UA_SIMPLE`. -/
def validate_phone (phone : String) : Bool :=
  if !pyIsdigit phone then false
  else if !uaSimpleMatch phone then false
  else true

/-- The `change` handler `update_contact`: reject the new phone by the
secondary rule before anything else; unknown names raise `ValueError`, which
the `input_error` decorator turns into `"Give me name and phone please."`;
otherwise edit the found record in place (a `ValueError` raised by `Phone`
validation inside `edit_phone` is caught the same way).  Returns the printed
message (if any) with the resulting book and allocation counter. -/
def update_contact (ctr : Nat) (book : AddressBook) (name oldS newS : String) :
    Option String × AddressBook × Nat :=
  if !validate_phone newS then (some "Invalid phone format.", book, ctr)
  else
    match book.find name with
    | none => (some "Give me name and phone please.", book, ctr)
    | some r =>
      match r.edit_phone ctr (.str oldS) (.str newS) with
      | (.error _, r2, c2) =>
        (some "Give me name and phone please.", ⟨dictInsert name r2 book.data⟩, c2)
      | (.ok _, r2, c2) => (none, ⟨dictInsert name r2 book.data⟩, c2)

/-- Follows the spec's words (claim C4/C5): strict `DD.MM.YYYY` with a
zero-padded two-digit day, zero-padded two-digit month and four-digit year,
denoting a constructible calendar date. -/
def strictDDMMYYYY (s : String) : Bool :=
  match s.data with
  | [d1, d2, '.', m1, m2, '.', y1, y2, y3, y4] =>
    [d1, d2, m1, m2, y1, y2, y3, y4].all Char.isDigit &&
    Date.valid ⟨tokVal [y1, y2, y3, y4], tokVal [m1, m2], tokVal [d1, d2]⟩
  | _ => false

/-- Follows the spec's words (claim C8): normalized to digits, the new phone
must equal a bare 10-digit national number with leading `0`, or the
international form `+380`/`380` followed by 9 digits. -/
def spec_changeRule (s : String) : Bool :=
  let d := (stripNonDigits s).data
  (d.length == 10 && d.head? == some '0') ||
  (d.length == 12 && d.take 3 == ['3', '8', '0'])

/-- Follows the spec's words (claim C2): the birthday's (month, day) in the
reference year, advanced one year if already passed. -/
def specThisYearBday (today : Date) (b : Date) : Date :=
  if Date.pyLt ⟨today.year, b.month, b.day⟩ today then ⟨today.year + 1, b.month, b.day⟩
  else ⟨today.year, b.month, b.day⟩

/-- Follows the spec's words (claim C2): the congratulation date is the
birthday shifted +2 days on a Saturday, +1 day on a Sunday, else unshifted. -/
def specCongrat (t : Date) : Date :=
  if t.weekday == 5 then t.addDaysT 2
  else if t.weekday == 6 then t.addDaysT 1
  else t

/-- Follows the spec's words (claim C2): the entry emitted for one record —
present iff `0 ≤ deltaDays ≤ 7`, carrying the name and the weekend-shifted
congratulation date formatted as `DD.MM.YYYY`. -/
def specUpcomingEntry (today : Date) (r : Record) : Option UpEntry :=
  match r.birthday with
  | none => none
  | some b =>
    if 0 ≤ ((specThisYearBday today b).toOrdinal : Int) - (today.toOrdinal : Int) ∧
        ((specThisYearBday today b).toOrdinal : Int) - (today.toOrdinal : Int) ≤ 7 then
      some ⟨r.name.value, (specCongrat (specThisYearBday today b)).format⟩
    else none

/-- Decidable check that one record's loop iteration raises no exception. -/
def recordOkB (today : Date) (r : Record) : Bool :=
  match recordUpcomingSt today r with
  | .ok _ => true
  | .error _ => false

/-- Decidable check that the whole traversal raises no exception. -/
def booksSafe (today : Date) (data : List (String × Record)) : Bool :=
  data.all (fun kv => recordOkB today kv.2)

/-- An `AddressBook` mutation of the kind quantified over by claim C9. -/
inductive BookOp where
  | add (o : PyObj)
  | del (name : String)

/-- Applying one operation; a raised `TypeError` leaves the book unchanged. -/
def stepBook (b : AddressBook) : BookOp → AddressBook
  | .add o =>
    match b.add_record o with
    | .ok b2 => b2
    | .error _ => b
  | .del n => (b.delete n).2

/-- The claimed key-name invariant, as a decidable predicate. -/
def goodBook (b : AddressBook) : Bool :=
  b.data.all (fun kv => kv.2.name.value == kv.1)

/-! Helper lemmas. -/

/-- Rejoining the segments produced by `splitDots`. -/
def joinDots : List (List Char) → List Char
  | [] => []
  | [t] => t
  | t :: ts => t ++ '.' :: joinDots ts

theorem splitDots_ne_nil (l : List Char) : splitDots l ≠ [] := by
  cases l with
  | nil => simp [splitDots]
  | cons c rest =>
    simp only [splitDots]
    split
    · simp
    · split <;> simp

theorem joinDots_splitDots (l : List Char) : joinDots (splitDots l) = l := by
  induction l with
  | nil => rfl
  | cons c rest ih =>
    simp only [splitDots]
    cases h : splitDots rest with
    | nil => exact absurd h (splitDots_ne_nil rest)
    | cons t ts =>
      rw [h] at ih
      show joinDots (if c = '.' then [] :: t :: ts else (c :: t) :: ts) = c :: rest
      by_cases hc : c = '.'
      · subst hc
        rw [if_pos rfl]
        cases ts <;> simpa [joinDots] using ih
      · rw [if_neg hc]
        cases ts <;> simpa [joinDots] using ih

theorem splitDots_no_dot {l : List Char} (h : '.' ∉ l) : splitDots l = [l] := by
  induction l with
  | nil => rfl
  | cons c rest ih =>
    have hc : c ≠ '.' := fun he => h (he ▸ List.mem_cons_self c rest)
    have hr : '.' ∉ rest := fun hm => h (List.mem_cons_of_mem c hm)
    simp [splitDots, ih hr, hc]

theorem splitDots_append_dot {a : List Char} (t : List Char) (ha : '.' ∉ a) :
    splitDots (a ++ '.' :: t) = a :: splitDots t := by
  induction a with
  | nil =>
    simp only [List.nil_append, splitDots]
    cases h : splitDots t with
    | nil => exact absurd h (splitDots_ne_nil t)
    | cons u us => simp
  | cons c a2 ih =>
    have hc : c ≠ '.' := fun he => ha (he ▸ List.mem_cons_self c a2)
    have ha2 : '.' ∉ a2 := fun hm => ha (List.mem_cons_of_mem c hm)
    simp [splitDots, ih ha2, hc]

theorem tokDigits_no_dot {l : List Char} (h : l.all Char.isDigit = true) : '.' ∉ l := by
  intro hm
  have := (List.all_eq_true.mp h) '.' hm
  simp [Char.isDigit] at this

theorem isDigit_toNat_bounds {c : Char} (h : c.isDigit = true) :
    48 ≤ c.toNat ∧ c.toNat ≤ 57 := by
  simp only [Char.isDigit, Bool.and_eq_true, decide_eq_true_eq] at h
  obtain ⟨h1, h2⟩ := h
  constructor
  · exact UInt32.le_toNat_of_le (by decide) h1
  · exact UInt32.toNat_le_of_le (by decide) h2

theorem digitChar_toNat {c : Char} (h : c.isDigit = true) :
    digitChar (c.toNat - 48) = c := by
  have hb := isDigit_toNat_bounds h
  unfold digitChar
  rw [show 48 + (c.toNat - 48) = c.toNat by omega]
  exact Char.ofNat_toNat c

theorem pad2L_tokVal {c1 c2 : Char} (h1 : c1.isDigit = true) (h2 : c2.isDigit = true) :
    pad2L (tokVal [c1, c2]) = [c1, c2] := by
  have hb1 := isDigit_toNat_bounds h1
  have hb2 := isDigit_toNat_bounds h2
  have hv : tokVal [c1, c2] = 10 * (c1.toNat - 48) + (c2.toNat - 48) := by
    simp [tokVal]
  unfold pad2L
  rw [hv]
  have e1 : (10 * (c1.toNat - 48) + (c2.toNat - 48)) / 10 % 10 = c1.toNat - 48 := by omega
  have e2 : (10 * (c1.toNat - 48) + (c2.toNat - 48)) % 10 = c2.toNat - 48 := by omega
  rw [e1, e2, digitChar_toNat h1, digitChar_toNat h2]

theorem pad4L_tokVal {c1 c2 c3 c4 : Char} (h1 : c1.isDigit = true)
    (h2 : c2.isDigit = true) (h3 : c3.isDigit = true) (h4 : c4.isDigit = true) :
    pad4L (tokVal [c1, c2, c3, c4]) = [c1, c2, c3, c4] := by
  have hb1 := isDigit_toNat_bounds h1
  have hb2 := isDigit_toNat_bounds h2
  have hb3 := isDigit_toNat_bounds h3
  have hb4 := isDigit_toNat_bounds h4
  have hv : tokVal [c1, c2, c3, c4] =
      1000 * (c1.toNat - 48) + 100 * (c2.toNat - 48) +
      10 * (c3.toNat - 48) + (c4.toNat - 48) := by
    simp [tokVal]; ring_nf
  unfold pad4L
  rw [hv]
  have e1 : (1000 * (c1.toNat - 48) + 100 * (c2.toNat - 48) + 10 * (c3.toNat - 48) +
      (c4.toNat - 48)) / 1000 % 10 = c1.toNat - 48 := by omega
  have e2 : (1000 * (c1.toNat - 48) + 100 * (c2.toNat - 48) + 10 * (c3.toNat - 48) +
      (c4.toNat - 48)) / 100 % 10 = c2.toNat - 48 := by omega
  have e3 : (1000 * (c1.toNat - 48) + 100 * (c2.toNat - 48) + 10 * (c3.toNat - 48) +
      (c4.toNat - 48)) / 10 % 10 = c3.toNat - 48 := by omega
  have e4 : (1000 * (c1.toNat - 48) + 100 * (c2.toNat - 48) + 10 * (c3.toNat - 48) +
      (c4.toNat - 48)) % 10 = c4.toNat - 48 := by omega
  rw [e1, e2, e3, e4, digitChar_toNat h1, digitChar_toNat h2,
    digitChar_toNat h3, digitChar_toNat h4]

theorem replaceFirst_false {pred : Phone → Bool} {np : Phone} :
    ∀ {l : List Phone}, (replaceFirst pred np l).1 = false →
      (replaceFirst pred np l).2 = l := by
  intro l
  induction l with
  | nil => intro; rfl
  | cons x xs ih =>
    simp only [replaceFirst]
    by_cases hx : pred x = true
    · simp [hx]
    · simp only [Bool.not_eq_true] at hx
      simp [hx]
      intro hb
      exact ih hb

theorem replaceFirst_true {pred : Phone → Bool} {np : Phone} :
    ∀ {l : List Phone}, (replaceFirst pred np l).1 = true →
      ∃ pre x post, l = pre ++ x :: post ∧ pred x = true ∧
        (∀ y ∈ pre, pred y = false) ∧
        (replaceFirst pred np l).2 = pre ++ np :: post := by
  intro l
  induction l with
  | nil => intro h; simp [replaceFirst] at h
  | cons x xs ih =>
    simp only [replaceFirst]
    by_cases hx : pred x = true
    · intro
      exact ⟨[], x, xs, by simp, hx, by simp, by simp [hx]⟩
    · simp only [Bool.not_eq_true] at hx
      simp only [hx, Bool.false_eq_true, if_false]
      intro hb
      obtain ⟨pre, z, post, he, hz, hpre, hres⟩ := ih hb
      refine ⟨x :: pre, z, post, by simp [he], hz, ?_, by simp [hres]⟩
      intro y hy
      rcases List.mem_cons.mp hy with h1 | h2
      · exact h1 ▸ hx
      · exact hpre y h2

theorem find?_dictInsert_self (k : String) (v : Record) :
    ∀ data : List (String × Record),
      (dictInsert k v data).find? (fun kv => kv.1 == k) = some (k, v) := by
  intro data
  induction data with
  | nil => simp [dictInsert]
  | cons kv rest ih =>
    obtain ⟨k2, v2⟩ := kv
    by_cases hk : k2 = k
    · subst hk
      simp [dictInsert]
    · have hk2 : (k2 == k) = false := beq_eq_false_iff_ne.mpr hk
      simp [dictInsert, hk2, ih]

theorem find?_dictInsert_other (k k3 : String) (v : Record) (hne : k3 ≠ k) :
    ∀ data : List (String × Record),
      (dictInsert k v data).find? (fun kv => kv.1 == k3) =
        data.find? (fun kv => kv.1 == k3) := by
  intro data
  induction data with
  | nil => simp [dictInsert, beq_eq_false_iff_ne.mpr (Ne.symm hne)]
  | cons kv rest ih =>
    obtain ⟨k2, v2⟩ := kv
    by_cases hk : k2 = k
    · subst hk
      simp [dictInsert, beq_eq_false_iff_ne.mpr (Ne.symm hne)]
    · have hk2 : (k2 == k) = false := beq_eq_false_iff_ne.mpr hk
      by_cases h3 : k2 = k3
      · subst h3
        simp [dictInsert, hk2]
      · have hk3 : (k2 == k3) = false := beq_eq_false_iff_ne.mpr h3
        simp [dictInsert, hk2, hk3, ih]

theorem daysInMonth_le_31 (y m : Nat) : daysInMonth y m ≤ 31 := by
  unfold daysInMonth
  split
  · split <;> omega
  · split <;> omega

theorem replaceYear_ok {d : Date} {y : Nat} {d2 : Date}
    (h : d.replaceYear y = .ok d2) :
    d2 = ⟨y, d.month, d.day⟩ ∧ d2.valid = true := by
  simp only [Date.replaceYear] at h
  split at h
  · cases h
    exact ⟨rfl, by assumption⟩
  · cases h

theorem succDayE_ok {d d2 : Date} (h : d.succDayE = .ok d2) :
    d.succDayT = d2 := by
  unfold Date.succDayE at h
  unfold Date.succDayT
  by_cases h1 : d.day < daysInMonth d.year d.month
  · rw [if_pos h1] at h ⊢
    exact (Except.ok.injEq _ _).mp h
  · rw [if_neg h1] at h ⊢
    by_cases h2 : d.month < 12
    · rw [if_pos h2] at h ⊢
      exact (Except.ok.injEq _ _).mp h
    · rw [if_neg h2] at h ⊢
      by_cases h3 : d.year < 9999
      · rw [if_pos h3] at h
        exact (Except.ok.injEq _ _).mp h
      · rw [if_neg h3] at h
        cases h

theorem addDaysE_ok : ∀ (n : Nat) {d d2 : Date}, d.addDaysE n = .ok d2 →
    d.addDaysT n = d2 := by
  intro n
  induction n with
  | zero => intro d d2 h; cases h; rfl
  | succ k ih =>
    intro d d2 h
    unfold Date.addDaysE at h
    unfold Date.addDaysT
    cases hs : d.succDayE with
    | ok d3 =>
      rw [hs] at h
      rw [succDayE_ok hs]
      exact ih h
    | error e => rw [hs] at h; cases h

theorem shiftWeekend_ok {t cd : Date} (h : shiftWeekend t = .ok cd) :
    specCongrat t = cd := by
  unfold shiftWeekend at h
  unfold specCongrat
  split at h
  · simp [*, addDaysE_ok 2 h]
  · split at h
    · simp [*, addDaysE_ok 1 h]
    · simp_all

theorem recordUpcoming_ok {today : Date} {r r2 : Record} {ent : Option UpEntry}
    (h : recordUpcomingSt today r = .ok (r2, ent)) :
    r2 = r ∧ ent = specUpcomingEntry today r := by
  unfold recordUpcomingSt at h
  split at h
  next hb =>
    cases h
    simp [specUpcomingEntry, hb]
  next bday hb =>
    split at h
    next e h0 => cases h
    next t0 h0 =>
      obtain ⟨ht0, -⟩ := replaceYear_ok h0
      subst ht0
      by_cases hlt : Date.pyLt ⟨today.year, bday.month, bday.day⟩ today
      · rw [if_pos hlt] at h
        split at h
        next e h1 => cases h
        next t h1 =>
          have ht : t = ⟨today.year + 1, bday.month, bday.day⟩ :=
            (replaceYear_ok h1).1
          subst ht
          simp only [specUpcomingEntry, hb, specThisYearBday, if_pos hlt]
          by_cases hw : 0 ≤ ((⟨today.year + 1, bday.month, bday.day⟩ : Date).toOrdinal : Int) -
              (today.toOrdinal : Int) ∧
              ((⟨today.year + 1, bday.month, bday.day⟩ : Date).toOrdinal : Int) -
              (today.toOrdinal : Int) ≤ 7
          · rw [if_pos hw] at h
            rw [if_pos hw]
            split at h
            next e h2 => cases h
            next cd h2 =>
              cases h
              exact ⟨rfl, by rw [shiftWeekend_ok h2]⟩
          · rw [if_neg hw] at h
            rw [if_neg hw]
            cases h
            exact ⟨rfl, rfl⟩
      · rw [if_neg hlt] at h
        split at h
        next e h1 => cases h
        next t h1 =>
          cases h1
          simp only [specUpcomingEntry, hb, specThisYearBday, if_neg hlt]
          by_cases hw : 0 ≤ ((⟨today.year, bday.month, bday.day⟩ : Date).toOrdinal : Int) -
              (today.toOrdinal : Int) ∧
              ((⟨today.year, bday.month, bday.day⟩ : Date).toOrdinal : Int) -
              (today.toOrdinal : Int) ≤ 7
          · rw [if_pos hw] at h
            rw [if_pos hw]
            split at h
            next e h2 => cases h
            next cd h2 =>
              cases h
              exact ⟨rfl, by rw [shiftWeekend_ok h2]⟩
          · rw [if_neg hw] at h
            rw [if_neg hw]
            cases h
            exact ⟨rfl, rfl⟩

theorem goUpcoming_state (today : Date) :
    ∀ data : List (String × Record), (goUpcoming today data).2 = data := by
  intro data
  induction data with
  | nil => rfl
  | cons kv rest ih =>
    obtain ⟨k, r⟩ := kv
    simp only [goUpcoming]
    cases hs : recordUpcomingSt today r with
    | error e => rfl
    | ok pr =>
      obtain ⟨r2, ent⟩ := pr
      have hr := (recordUpcoming_ok hs).1
      subst hr
      rcases hg : goUpcoming today rest with ⟨res, rest2⟩
      rw [hg] at ih
      simp only [hg]
      simpa using ih

theorem goUpcoming_emits (today : Date) :
    ∀ data : List (String × Record), booksSafe today data = true →
      (goUpcoming today data).1 =
        .ok (data.filterMap fun kv => specUpcomingEntry today kv.2) := by
  intro data
  induction data with
  | nil => intro; rfl
  | cons kv rest ih =>
    obtain ⟨k, r⟩ := kv
    intro hsafe
    simp only [booksSafe, List.all_cons, Bool.and_eq_true] at hsafe
    obtain ⟨hr, hrest⟩ := hsafe
    unfold recordOkB at hr
    simp only [goUpcoming]
    cases hs : recordUpcomingSt today r with
    | error e => rw [hs] at hr; cases hr
    | ok pr =>
      obtain ⟨r2, ent⟩ := pr
      have hent := (recordUpcoming_ok hs).2
      have hfst := ih hrest
      rcases hg : goUpcoming today rest with ⟨res, rest2⟩
      rw [hg] at hfst
      simp only [hg]
      simp only at hfst
      rw [hfst]
      simp only [List.filterMap_cons, ← hent]
      cases ent <;> simp

/-- Claim C10 — `get_upcoming_birthdays` is a pure query: for every book and
reference date, the traversal returns the book state exactly unchanged (every
record, with its name, phones and birthday, is passed back as read). -/
theorem c10_upcoming_is_pure (b : AddressBook) (today : Date) :
    (b.get_upcoming_birthdays today).2 = b := by
  unfold AddressBook.get_upcoming_birthdays
  rcases hg : goUpcoming today b.data with ⟨res, data2⟩
  have hst := goUpcoming_state today b.data
  rw [hg] at hst
  simp only at hst
  simp only [hg, hst]

/-- Claim C2 — provided no iteration raises (every stored birthday's
(month, day) exists in the years it is mapped into, and the weekend shift
stays in range), the query emits exactly one entry per record whose upcoming
birthday satisfies `0 ≤ deltaDays ≤ 7`: the record's name with the
congratulation date `thisYearBday` shifted +2 days on a Saturday, +1 day on
a Sunday, otherwise unshifted, formatted as `DD.MM.YYYY` — where
`thisYearBday` is the birthday in the reference year, advanced one year if
already passed. -/
theorem c2_upcoming_birthdays (b : AddressBook) (today : Date)
    (hsafe : booksSafe today b.data = true) :
    (b.get_upcoming_birthdays today).1 =
      .ok (b.data.filterMap fun kv => specUpcomingEntry today kv.2) := by
  unfold AddressBook.get_upcoming_birthdays
  rcases hg : goUpcoming today b.data with ⟨res, data2⟩
  have he := goUpcoming_emits today b.data hsafe
  rw [hg] at he
  simp only at he
  simp only [hg, he]

/-- Witness for C2 at Scenario A: Anna, born 15.06.1990, queried on
10.06.2024 — 15.06.2024 is a Saturday, so the emitted congratulation date is
Monday 17.06.2024. -/
theorem c2_witness :
    booksSafe ⟨2024, 6, 10⟩ [("Anna", ⟨⟨"Anna"⟩, [], some ⟨1990, 6, 15⟩⟩)] = true ∧
    (AddressBook.get_upcoming_birthdays ⟨[("Anna", ⟨⟨"Anna"⟩, [], some ⟨1990, 6, 15⟩⟩)]⟩
        ⟨2024, 6, 10⟩).1 = .ok [⟨"Anna", "17.06.2024"⟩] := by
  have hsafe : booksSafe ⟨2024, 6, 10⟩
      [("Anna", ⟨⟨"Anna"⟩, [], some ⟨1990, 6, 15⟩⟩)] = true := by decide
  refine ⟨hsafe, ?_⟩
  rw [c2_upcoming_birthdays ⟨[("Anna", ⟨⟨"Anna"⟩, [], some ⟨1990, 6, 15⟩⟩)]⟩
    ⟨2024, 6, 10⟩ hsafe]
  rfl

theorem all_dictInsert {p : String × Record → Bool} {k : String} {v : Record}
    (hv : p (k, v) = true) :
    ∀ {data : List (String × Record)}, data.all p = true →
      (dictInsert k v data).all p = true := by
  intro data
  induction data with
  | nil => intro; simpa [dictInsert] using hv
  | cons kv rest ih =>
    obtain ⟨k2, v2⟩ := kv
    intro hall
    simp only [List.all_cons, Bool.and_eq_true] at hall
    unfold dictInsert
    by_cases hk : (k2 == k) = true
    · rw [if_pos hk]
      simp [hv, hall.2]
    · rw [if_neg hk]
      simp [hall.1, ih hall.2]

theorem all_of_filter {p q : String × Record → Bool}
    {data : List (String × Record)} (h : data.all p = true) :
    (data.filter q).all p = true := by
  rw [List.all_eq_true] at h ⊢
  intro x hx
  exact h x (List.mem_of_mem_filter hx)

theorem stepBook_good {b : AddressBook} {op : BookOp} (h : goodBook b = true) :
    goodBook (stepBook b op) = true := by
  cases op with
  | add o =>
    cases o with
    | record r =>
      simp only [stepBook, AddressBook.add_record]
      exact all_dictInsert (by simp) h
    | other tag => simpa [stepBook, AddressBook.add_record] using h
  | del n =>
    simp only [stepBook, AddressBook.delete]
    split
    · exact all_of_filter h
    · exact h

/-- Claim C9 — key-name invariant: in every book state reachable from the
empty book by a sequence of `add_record` and `delete` operations, every key
maps to a record whose name equals that key. -/
theorem c9_key_name_invariant (ops : List BookOp) :
    goodBook (ops.foldl stepBook ⟨[]⟩) = true := by
  suffices h : ∀ b : AddressBook, goodBook b = true →
      goodBook (ops.foldl stepBook b) = true from h ⟨[]⟩ rfl
  induction ops with
  | nil => intro b hb; exact hb
  | cons op rest ih =>
    intro b hb
    exact ih (stepBook b op) (stepBook_good hb)

/-- Claim C7 — `add_record` raises `TypeError` on every non-`Record`
argument; on a `Record` it inserts keyed by the record's name, silently and
entirely replacing any previous record under that name (lookups of that name
afterwards yield exactly the new record) and leaving every other key's
lookup unchanged. -/
theorem c7_add_record (b : AddressBook) :
    (∀ tag, b.add_record (.other tag) = .error "Очікувався об'єкт Record.") ∧
    (∀ r b2, b.add_record (.record r) = .ok b2 →
      b2.find r.name.value = some r ∧
      ∀ k, k ≠ r.name.value → b2.find k = b.find k) := by
  refine ⟨fun tag => rfl, fun r b2 h => ?_⟩
  cases h
  constructor
  · unfold AddressBook.find
    rw [find?_dictInsert_self]
    rfl
  · intro k hk
    unfold AddressBook.find
    rw [find?_dictInsert_other _ _ _ hk]

/-- Witness for C7: adding a second record named "Bob" over an existing one
replaces it entirely — the lookup yields the new record (no phones of the
old record, no birthday retained). -/
theorem c7_witness :
    (AddressBook.mk [("Bob", ⟨⟨"Bob"⟩, [⟨0, "0991234567"⟩], some ⟨1990, 6, 15⟩⟩)]).add_record
        (.record ⟨⟨"Bob"⟩, [⟨1, "0661234567"⟩], none⟩) =
      .ok ⟨[("Bob", ⟨⟨"Bob"⟩, [⟨1, "0661234567"⟩], none⟩)]⟩ ∧
    (AddressBook.mk [("Bob", ⟨⟨"Bob"⟩, [⟨1, "0661234567"⟩], none⟩)]).find "Bob" =
      some ⟨⟨"Bob"⟩, [⟨1, "0661234567"⟩], none⟩ := by
  refine ⟨rfl, ?_⟩
  exact ((c7_add_record
    ⟨[("Bob", ⟨⟨"Bob"⟩, [⟨0, "0991234567"⟩], some ⟨1990, 6, 15⟩⟩)]⟩).2
    ⟨⟨"Bob"⟩, [⟨1, "0661234567"⟩], none⟩
    ⟨[("Bob", ⟨⟨"Bob"⟩, [⟨1, "0661234567"⟩], none⟩)]⟩ rfl).1

/-- Claim C1 — evaluation of the code at the spec's Scenario B: after
`add_phone("0991234567")`, `find_phone("0991234567")` returns `None` (not
the stored phone), because `Field` defines no `__eq__` and `==` between a
freshly wrapped `Phone` and the stored one is object identity; a differently
formatted string also returns `None`, and `remove_phone`/`edit_phone` with
the same raw string likewise find nothing. -/
theorem c1_identity_equality_evaluation :
    (Record.mk0 "Olena").add_phone 0 (.str "0991234567") =
      (.ok ⟨0, "0991234567"⟩, ⟨⟨"Olena"⟩, [⟨0, "0991234567"⟩], none⟩, 1) ∧
    Record.find_phone 1 ⟨⟨"Olena"⟩, [⟨0, "0991234567"⟩], none⟩ (.str "0991234567") =
      (.ok none, 2) ∧
    Record.find_phone 1 ⟨⟨"Olena"⟩, [⟨0, "0991234567"⟩], none⟩ (.str "099-123-4567") =
      (.ok none, 2) ∧
    Record.remove_phone 1 ⟨⟨"Olena"⟩, [⟨0, "0991234567"⟩], none⟩ (.str "0991234567") =
      (.ok false, ⟨⟨"Olena"⟩, [⟨0, "0991234567"⟩], none⟩, 2) ∧
    Record.edit_phone 1 ⟨⟨"Olena"⟩, [⟨0, "0991234567"⟩], none⟩ (.str "0991234567")
        (.str "0661234567") =
      (.ok false, ⟨⟨"Olena"⟩, [⟨0, "0991234567"⟩], none⟩, 3) :=
  ⟨rfl, rfl, rfl, rfl, rfl⟩

/-- Claim C3 — `Phone` construction succeeds iff the argument carries
exactly 10 digit characters (counted after stripping every non-digit), and
on success the stored value is the original string itself, unnormalized;
otherwise it raises `ValueError("Phone number must have 10 digits")`. -/
theorem c3_phone_validation (s : String) (ctr : Nat) :
    if s.data.countP Char.isDigit = 10
    then mkPhone ctr s = .ok (⟨ctr, s⟩, ctr + 1)
    else mkPhone ctr s = .error "Phone number must have 10 digits" := by
  have hlen : (stripNonDigits s).data.length = s.data.countP Char.isDigit := by
    rw [List.countP_eq_length_filter]
    rfl
  by_cases hc : s.data.countP Char.isDigit = 10
  · rw [if_pos hc]
    unfold mkPhone phoneValidate
    rw [if_pos (by rw [hlen, hc]; rfl)]
  · rw [if_neg hc]
    unfold mkPhone phoneValidate
    rw [if_neg (by rw [hlen]; simpa using hc)]

/-- Claim C6 — `edit_phone` validates both arguments before touching the
phone list: on a validation error the record is unchanged; when no stored
entry equals `old` it returns `False` and the phone list is exactly
unchanged (in particular `new` is never appended); when an entry is found,
exactly the first matching position is replaced by the wrapped `new`, the
rest of the list and the record's name and birthday being untouched. -/
theorem c6_edit_phone (ctr : Nat) (r : Record) (old new : StrOrPhone) :
    (∀ e r2 c2, Record.edit_phone ctr r old new = (.error e, r2, c2) → r2 = r) ∧
    (∀ r2 c2, Record.edit_phone ctr r old new = (.ok false, r2, c2) → r2 = r) ∧
    (∀ r2 c2, Record.edit_phone ctr r old new = (.ok true, r2, c2) →
      r2.name = r.name ∧ r2.birthday = r.birthday ∧
      ∃ op c1 np c2b pre x post,
        resolvePhone ctr old = .ok (op, c1) ∧
        resolvePhone c1 new = .ok (np, c2b) ∧
        r.phones = pre ++ x :: post ∧ pyEq op x = true ∧
        (∀ y ∈ pre, pyEq op y = false) ∧
        r2.phones = pre ++ np :: post) := by
  refine ⟨fun e r2 c2 h => ?_, fun r2 c2 h => ?_, fun r2 c2 h => ?_⟩
  · unfold Record.edit_phone at h
    split at h
    next e1 h1 =>
      simp only [Prod.mk.injEq] at h
      exact h.2.1.symm
    next p1 c1 h1 =>
      split at h
      next e2 h2 =>
        simp only [Prod.mk.injEq] at h
        exact h.2.1.symm
      next p2 c2b h2 =>
        rcases hrf : replaceFirst (fun q => pyEq p1 q) p2 r.phones with ⟨bb, ps⟩
        rw [hrf] at h
        simp only [Prod.mk.injEq] at h
        exact absurd h.1 (by simp)
  · unfold Record.edit_phone at h
    split at h
    next e1 h1 => simp only [Prod.mk.injEq] at h; exact absurd h.1 (by simp)
    next p1 c1 h1 =>
      split at h
      next e2 h2 => simp only [Prod.mk.injEq] at h; exact absurd h.1 (by simp)
      next p2 c2b h2 =>
        rcases hrf : replaceFirst (fun q => pyEq p1 q) p2 r.phones with ⟨bb, ps⟩
        rw [hrf] at h
        simp only [Prod.mk.injEq, Except.ok.injEq] at h
        obtain ⟨hb, hr2, -⟩ := h
        have hfst : (replaceFirst (fun q => pyEq p1 q) p2 r.phones).1 = false := by
          rw [hrf, ← hb]
        have hsnd := replaceFirst_false hfst
        rw [hrf] at hsnd
        simp only at hsnd
        rw [← hr2, hsnd]
  · unfold Record.edit_phone at h
    split at h
    next e1 h1 => simp only [Prod.mk.injEq] at h; exact absurd h.1 (by simp)
    next p1 c1 h1 =>
      split at h
      next e2 h2 => simp only [Prod.mk.injEq] at h; exact absurd h.1 (by simp)
      next p2 c2b h2 =>
        rcases hrf : replaceFirst (fun q => pyEq p1 q) p2 r.phones with ⟨bb, ps⟩
        rw [hrf] at h
        simp only [Prod.mk.injEq, Except.ok.injEq] at h
        obtain ⟨hb, hr2, -⟩ := h
        have hfst : (replaceFirst (fun q => pyEq p1 q) p2 r.phones).1 = true := by
          rw [hrf, ← hb]
        obtain ⟨pre, x, post, hsplit, hx, hpre, hres⟩ := replaceFirst_true hfst
        rw [hrf] at hres
        simp only at hres
        refine ⟨by rw [← hr2], by rw [← hr2], p1, c1, p2, c2b, pre, x, post,
          h1, h2, hsplit, hx, hpre, ?_⟩
        rw [← hr2, hres]

/-- Witness for C6, exercising the found case (possible in Python only when
`old` is the very `Phone` object stored in the list): the first matching
position is replaced in place, later entries untouched. -/
theorem c6_witness :
    (⟨⟨"A"⟩, [⟨0, "0991234567"⟩, ⟨1, "0731111111"⟩], none⟩ : Record).name =
        (⟨⟨"A"⟩, [⟨0, "0991234567"⟩, ⟨1, "0731111111"⟩], none⟩ : Record).name ∧
      (⟨⟨"A"⟩, [⟨0, "0991234567"⟩, ⟨1, "0731111111"⟩], none⟩ : Record).birthday =
        (⟨⟨"A"⟩, [⟨0, "0991234567"⟩, ⟨1, "0731111111"⟩], none⟩ : Record).birthday ∧
      ∃ op c1 np c2b pre x post,
        resolvePhone 2 (.phone ⟨0, "0991234567"⟩) = .ok (op, c1) ∧
        resolvePhone c1 (.str "0661234567") = .ok (np, c2b) ∧
        [(⟨0, "0991234567"⟩ : Phone), ⟨1, "0731111111"⟩] = pre ++ x :: post ∧
        pyEq op x = true ∧ (∀ y ∈ pre, pyEq op y = false) ∧
        [(⟨2, "0661234567"⟩ : Phone), ⟨1, "0731111111"⟩] = pre ++ np :: post := by
  have h := (c6_edit_phone 2 ⟨⟨"A"⟩, [⟨0, "0991234567"⟩, ⟨1, "0731111111"⟩], none⟩
    (.phone ⟨0, "0991234567"⟩) (.str "0661234567")).2.2
    ⟨⟨"A"⟩, [⟨2, "0661234567"⟩, ⟨1, "0731111111"⟩], none⟩ 3 rfl
  exact h

theorem validate_phone_eq_and (s : String) :
    validate_phone s = (pyIsdigit s && uaSimpleMatch s) := by
  unfold validate_phone
  cases hp : pyIsdigit s <;> cases hu : uaSimpleMatch s <;> simp [hp, hu]

theorem uaSimpleMatch_of_digits {s : String} (hd : s.data.all Char.isDigit = true) :
    uaSimpleMatch s = true ↔
      ((s.data.length = 10 ∧ s.data.head? = some '0') ∨
       (s.data.length = 12 ∧ s.data.take 3 = ['3', '8', '0'])) := by
  unfold uaSimpleMatch
  constructor
  · intro h
    split at h
    next rest heq =>
      rw [heq] at hd
      simp only [List.all_cons, Bool.and_eq_true] at hd
      exact absurd hd.1 (by decide)
    next rest heq =>
      right
      rw [heq]
      simp only [Bool.and_eq_true, beq_iff_eq] at h
      simp [h.1]
    next rest heq =>
      left
      rw [heq]
      simp only [Bool.and_eq_true, beq_iff_eq] at h
      simp [h.1]
    next => cases h
  · intro h
    rcases h with ⟨hlen, hhead⟩ | ⟨hlen, htake⟩
    · rcases hd2 : s.data with _ | ⟨c, rest⟩
      · rw [hd2] at hhead; cases hhead
      · rw [hd2] at hhead hlen hd
        have hc : c = '0' := by simpa using hhead
        subst hc
        show (rest.length == 9 && rest.all Char.isDigit) = true
        simp only [List.length_cons] at hlen
        simp only [List.all_cons, Bool.and_eq_true] at hd
        simp [hd.2]
        omega
    · rcases hd3 : s.data with _ | ⟨c1, _ | ⟨c2, _ | ⟨c3, rest⟩⟩⟩ <;>
        rw [hd3] at htake hlen hd
      · cases htake
      · cases htake
      · cases htake
      · simp only [List.take_succ_cons, List.take_zero, List.cons.injEq,
          and_true] at htake
        obtain ⟨h1, h2, h3⟩ := htake
        subst h1; subst h2; subst h3
        show (rest.length == 9 && rest.all Char.isDigit) = true
        simp only [List.length_cons] at hlen
        simp only [List.all_cons, Bool.and_eq_true] at hd
        simp [hd.2.2.2]
        omega

/-- Counterexample to claim C8 as stated: `"+380991234567"` satisfies the
claimed rule (normalized to digits it is `380` followed by 9 digits, indeed
the literal international form `+380…`), yet the code's `validate_phone`
rejects it, because the `isdigit` gate runs before the regex and no string
containing `+` can pass it. -/
theorem c8_counterexample :
    spec_changeRule "+380991234567" = true ∧
    validate_phone "+380991234567" = false := ⟨rfl, rfl⟩

/-- Claim C8 as amended — the secondary rule accepts exactly the all-digit
strings that are either a 10-digit national number with leading `0` or a
12-digit `380`-prefixed international number (a `+`-prefixed form is always
rejected by the `isdigit` gate); `"380991234567"` passes, `"12345"` fails,
and a failing new phone makes `change` return `"Invalid phone format."`
with the book untouched. -/
theorem c8_amended_change_rule :
    (∀ s : String, validate_phone s = true ↔
      (s.data ≠ [] ∧ s.data.all Char.isDigit = true ∧
        ((s.data.length = 10 ∧ s.data.head? = some '0') ∨
         (s.data.length = 12 ∧ s.data.take 3 = ['3', '8', '0'])))) ∧
    validate_phone "380991234567" = true ∧
    validate_phone "12345" = false ∧
    (∀ ctr book name oldS newS, validate_phone newS = false →
      update_contact ctr book name oldS newS =
        (some "Invalid phone format.", book, ctr)) := by
  refine ⟨fun s => ?_, rfl, rfl, fun ctr book name oldS newS h => ?_⟩
  · rw [validate_phone_eq_and, Bool.and_eq_true]
    unfold pyIsdigit
    constructor
    · intro hh
      obtain ⟨hp, hu⟩ := hh
      simp only [Bool.and_eq_true, Bool.not_eq_true'] at hp
      obtain ⟨hne0, hall⟩ := hp
      have hne : s.data ≠ [] := by
        intro he
        rw [he] at hne0
        simp at hne0
      exact ⟨hne, hall, (uaSimpleMatch_of_digits hall).mp hu⟩
    · intro hh
      obtain ⟨hne, hall, hshape⟩ := hh
      refine ⟨?_, (uaSimpleMatch_of_digits hall).mpr hshape⟩
      rcases hd4 : s.data with _ | ⟨a, t⟩
      · exact absurd hd4 hne
      · rw [hd4] at hall
        simp [hd4, hall]
  · unfold update_contact
    rw [h]
    rfl

/-- Witness for C8's amended theorem: `change` with the failing new phone
`"12345"` reports the bad format and leaves the (empty) book as it was. -/
theorem c8_witness :
    update_contact 0 ⟨[]⟩ "Anna" "0991234567" "12345" =
      (some "Invalid phone format.", (⟨[]⟩ : AddressBook), 0) :=
  c8_amended_change_rule.2.2.2 0 ⟨[]⟩ "Anna" "0991234567" "12345" rfl

theorem dayTokOk_digits {l : List Char} (h : dayTokOk l = true) :
    l.all Char.isDigit = true := by
  cases hq : l.all Char.isDigit with
  | true => rfl
  | false =>
    unfold dayTokOk tokDigits at h
    rw [hq] at h
    simp at h

theorem monthTokOk_digits {l : List Char} (h : monthTokOk l = true) :
    l.all Char.isDigit = true := by
  cases hq : l.all Char.isDigit with
  | true => rfl
  | false =>
    unfold monthTokOk tokDigits at h
    rw [hq] at h
    simp at h

theorem yearTokOk_digits {l : List Char} (h : yearTokOk l = true) :
    l.all Char.isDigit = true := by
  cases hq : l.all Char.isDigit with
  | true => rfl
  | false =>
    unfold yearTokOk tokDigits at h
    rw [hq] at h
    simp at h

/-- Counterexample to claim C4 as stated: `"1.01.2020"` is not of the
claimed strict zero-padded `DD.MM.YYYY` shape, yet `Birthday` construction
succeeds on it — CPython's `strptime` `%d` group accepts a single digit. -/
theorem c4_counterexample :
    strptimeDMY "1.01.2020" = .ok ⟨2020, 1, 1⟩ ∧
    strictDDMMYYYY "1.01.2020" = false := ⟨rfl, rfl⟩

/-- Claim C4 as amended — `Birthday` construction succeeds exactly on
strings `day.month.year` whose day group is one or two digits valued 1–31,
month group one or two digits valued 1–12, year group exactly four digits
(zero-padding of day and month is *not* required), with the triple a
constructible calendar date; every other string (wrong separators,
non-numeric fields, out-of-range or impossible dates such as 29.02 in a
non-leap year, trailing garbage) fails with the invalid-format
`ValueError`. -/
theorem c4_amended_formats (s : String) :
    ((∃ dt, strptimeDMY s = .ok dt) ↔
      ∃ dTok mTok yTok, s.data = dTok ++ '.' :: (mTok ++ '.' :: yTok) ∧
        dayTokOk dTok = true ∧ monthTokOk mTok = true ∧ yearTokOk yTok = true ∧
        Date.valid ⟨tokVal yTok, tokVal mTok, tokVal dTok⟩ = true) ∧
    ((∃ dt, strptimeDMY s = .ok dt) ∨
      strptimeDMY s = .error "Invalid date format. Use DD.MM.YYYY") := by
  constructor
  · constructor
    · intro hh
      obtain ⟨dt, h⟩ := hh
      unfold strptimeDMY at h
      split at h
      next dTok mTok yTok heq =>
        split at h
        next hTok =>
          split at h
          next hval =>
            simp only [Bool.and_eq_true] at hTok
            refine ⟨dTok, mTok, yTok, ?_, hTok.1.1, hTok.1.2, hTok.2, hval⟩
            have hj := joinDots_splitDots s.data
            rw [heq] at hj
            simp only [joinDots] at hj
            exact hj.symm
          next => cases h
        next => cases h
      next => cases h
    · intro hh
      obtain ⟨dTok, mTok, yTok, hs, hd, hm, hy, hval⟩ := hh
      have hnd : '.' ∉ dTok := tokDigits_no_dot (dayTokOk_digits hd)
      have hnm : '.' ∉ mTok := tokDigits_no_dot (monthTokOk_digits hm)
      have hny : '.' ∉ yTok := tokDigits_no_dot (yearTokOk_digits hy)
      have hsplit : splitDots s.data = [dTok, mTok, yTok] := by
        rw [hs, splitDots_append_dot _ hnd, splitDots_append_dot _ hnm,
          splitDots_no_dot hny]
      refine ⟨⟨tokVal yTok, tokVal mTok, tokVal dTok⟩, ?_⟩
      unfold strptimeDMY
      rw [hsplit]
      show (if dayTokOk dTok && monthTokOk mTok && yearTokOk yTok then _ else _) = _
      rw [if_pos (by simp [hd, hm, hy])]
      simp only [hval, if_true]
  · unfold strptimeDMY
    split
    · split
      · split
        · exact Or.inl ⟨_, rfl⟩
        · exact Or.inr rfl
      · exact Or.inr rfl
    · exact Or.inr rfl

/-- Claim C5 — round-trip: any strict zero-padded `DD.MM.YYYY` string on
which `Birthday` construction succeeds is reproduced exactly by
`strftime("%d.%m.%Y")` on the parsed date. -/
theorem c5_roundtrip (s : String) (d : Date) (hs : strictDDMMYYYY s = true)
    (hp : strptimeDMY s = .ok d) : d.format = s := by
  unfold strictDDMMYYYY at hs
  split at hs
  next d1 d2 m1 m2 y1 y2 y3 y4 heq =>
    simp only [List.all_cons, List.all_nil, Bool.and_true, Bool.and_eq_true] at hs
    obtain ⟨⟨hd1, hd2, hm1, hm2, hy1, hy2, hy3, hy4⟩, hval⟩ := hs
    have hnd : '.' ∉ ([d1, d2] : List Char) :=
      tokDigits_no_dot (by simp [hd1, hd2])
    have hnm : '.' ∉ ([m1, m2] : List Char) :=
      tokDigits_no_dot (by simp [hm1, hm2])
    have hny : '.' ∉ ([y1, y2, y3, y4] : List Char) :=
      tokDigits_no_dot (by simp [hy1, hy2, hy3, hy4])
    have hsplit : splitDots s.data = [[d1, d2], [m1, m2], [y1, y2, y3, y4]] := by
      rw [heq,
        show ([d1, d2, '.', m1, m2, '.', y1, y2, y3, y4] : List Char) =
          [d1, d2] ++ '.' :: ([m1, m2] ++ '.' :: [y1, y2, y3, y4]) from rfl,
        splitDots_append_dot _ hnd, splitDots_append_dot _ hnm,
        splitDots_no_dot hny]
    have h31 := daysInMonth_le_31 (tokVal [y1, y2, y3, y4]) (tokVal [m1, m2])
    have hvn := hval
    simp only [Date.valid, Bool.and_eq_true, decide_eq_true_eq] at hvn
    have hday : dayTokOk [d1, d2] = true := by
      simp only [dayTokOk, tokDigits, List.all_cons, List.all_nil, Bool.and_true,
        List.isEmpty_cons, Bool.not_false, List.length_cons, List.length_nil,
        Bool.and_eq_true, Bool.or_eq_true, beq_iff_eq, decide_eq_true_eq,
        Bool.true_and, or_true, true_or, true_and, and_true, hd1, hd2]
      omega
    have hmonth : monthTokOk [m1, m2] = true := by
      simp only [monthTokOk, tokDigits, List.all_cons, List.all_nil, Bool.and_true,
        List.isEmpty_cons, Bool.not_false, List.length_cons, List.length_nil,
        Bool.and_eq_true, Bool.or_eq_true, beq_iff_eq, decide_eq_true_eq,
        Bool.true_and, or_true, true_or, true_and, and_true, hm1, hm2]
      omega
    have hyear : yearTokOk [y1, y2, y3, y4] = true := by
      simp [yearTokOk, tokDigits, hy1, hy2, hy3, hy4]
    unfold strptimeDMY at hp
    rw [hsplit] at hp
    replace hp : (if dayTokOk [d1, d2] && monthTokOk [m1, m2] && yearTokOk [y1, y2, y3, y4]
        then if Date.valid ⟨tokVal [y1, y2, y3, y4], tokVal [m1, m2], tokVal [d1, d2]⟩
          then Except.ok (⟨tokVal [y1, y2, y3, y4], tokVal [m1, m2], tokVal [d1, d2]⟩ : Date)
          else Except.error "Invalid date format. Use DD.MM.YYYY"
        else Except.error "Invalid date format. Use DD.MM.YYYY") = Except.ok d := hp
    rw [if_pos (by simp [hday, hmonth, hyear]), if_pos hval] at hp
    cases hp
    unfold Date.format
    rw [show (⟨tokVal [y1, y2, y3, y4], tokVal [m1, m2], tokVal [d1, d2]⟩ : Date).day =
      tokVal [d1, d2] from rfl]
    rw [show (⟨tokVal [y1, y2, y3, y4], tokVal [m1, m2], tokVal [d1, d2]⟩ : Date).month =
      tokVal [m1, m2] from rfl]
    rw [show (⟨tokVal [y1, y2, y3, y4], tokVal [m1, m2], tokVal [d1, d2]⟩ : Date).year =
      tokVal [y1, y2, y3, y4] from rfl]
    rw [pad2L_tokVal hd1 hd2, pad2L_tokVal hm1 hm2, pad4L_tokVal hy1 hy2 hy3 hy4]
    show String.mk [d1, d2, '.', m1, m2, '.', y1, y2, y3, y4] = s
    rw [← heq]
  next => cases hs

/-- Witness for C5 at the spec's own example: `"29.02.2024"` is strict
zero-padded, parses (2024 is a leap year), and formats back to itself. -/
theorem c5_witness :
    strictDDMMYYYY "29.02.2024" = true ∧
    strptimeDMY "29.02.2024" = .ok ⟨2024, 2, 29⟩ ∧
    Date.format ⟨2024, 2, 29⟩ = "29.02.2024" :=
  ⟨rfl, rfl, c5_roundtrip "29.02.2024" ⟨2024, 2, 29⟩ rfl rfl⟩

end HW07
